import Mathlib

/-!
Shallow embedding of the ZnPOS data-access layer (`MongoStorage`, the
express route handlers and the authorization middleware of
`server/routes.ts` / `server/mongo-storage.ts`).

Collections of the Mongo document store are modelled as Lean lists kept in
collection order; every storage method becomes a pure function from a `DB`
state (plus its arguments) to its result and the successor state.  Mongo
query/update primitives are translated by their documented semantics:
`findOne`/`updateOne`/`deleteOne` act on the first matching document,
`find` keeps collection order, `$lookup` joins by equality keeping order,
`$match` on a looked-up array field succeeds when some element matches,
`$group` buckets rows by key (first-occurrence order, `$first` taking the
first row of the bucket) and aggregation `$sort`/`$limit` become a stable
sort and `List.take`.  bcrypt is idealized: a stored credential is either
a hash of a password or a legacy plaintext, `bcrypt.compare` succeeds
exactly on the hash of the compared password (on a non-hash value the
library throws, which the source catches and treats as a failed compare),
and a plaintext never equals a hash string.  Decimal money strings that
the aggregations convert with `$toDouble` are carried as their numeric
value; money strings that are only stored and echoed stay `String`.
`new Date()` timestamps are an explicit `now : Nat` parameter.
-/

namespace ZnPOS

/-- The six permission flags of a user (`MongoUser.permissions`). -/
structure Permissions where
  pos : Bool
  inventory : Bool
  customers : Bool
  reports : Bool
  employees : Bool
  settings : Bool
deriving Repr, DecidableEq

/-- The six capability names accepted by `requirePermission`. -/
inductive Capability where
  | pos | inventory | customers | reports | employees | settings
deriving Repr, DecidableEq

/-- Look up one flag of a `Permissions` record (`user.permissions[permission]`). -/
def Permissions.flag (p : Permissions) : Capability → Bool
  | .pos => p.pos
  | .inventory => p.inventory
  | .customers => p.customers
  | .reports => p.reports
  | .employees => p.employees
  | .settings => p.settings

/-- A stored password string: either a bcrypt hash of some password or a
legacy plaintext.  The constructor keeps the two shapes apart, which is the
idealization of bcrypt's self-describing `$2b$...` format. -/
inductive PwStored where
  | bhash (pw : String)
  | plain (pw : String)
deriving Repr, DecidableEq

/-- Embeds `bcrypt.compare(password, stored)`: true exactly when `stored` is a
bcrypt hash of `password`; on a stored value that is not a valid hash the
library throws, the source catches the error and falls through with
`isPasswordValid = false`. -/
def bcryptCompare (password : String) (stored : PwStored) : Bool :=
  match stored with
  | .bhash p => password == p
  | .plain _ => false

/-- Embeds `await bcrypt.hash(password, 12)` (salt elided; the hash determines the
password it was derived from). -/
def bcryptHash (password : String) : PwStored :=
  .bhash password

/-- JS `user.password === password` on the stored string: a legacy
plaintext equals the probe exactly when the strings agree; a bcrypt hash
string never equals the plaintext probe. -/
def pwEqPlain (stored : PwStored) (password : String) : Bool :=
  match stored with
  | .bhash _ => false
  | .plain p => p == password

/-- JS `String.prototype.trim`: strip leading and trailing whitespace. -/
def trimStr (s : String) : String :=
  ⟨((s.data.dropWhile Char.isWhitespace).reverse.dropWhile Char.isWhitespace).reverse⟩

/-- Embeds `MongoUser` document. -/
structure MongoUser where
  id : Nat
  businessId : Nat
  username : String
  email : String
  password : PwStored
  firstName : String
  lastName : String
  role : String
  isActive : Bool
  permissions : Permissions
  createdAt : Nat
deriving Repr, DecidableEq

/-- A user document with the `password` field projected away
(`projection: { password: 0 }`, and the `createUser` return value). -/
structure UserSafe where
  id : Nat
  businessId : Nat
  username : String
  email : String
  firstName : String
  lastName : String
  role : String
  isActive : Bool
  permissions : Permissions
  createdAt : Nat
deriving Repr, DecidableEq

/-- Drop the password field from a user document. -/
def stripPassword (u : MongoUser) : UserSafe :=
  { id := u.id, businessId := u.businessId, username := u.username,
    email := u.email, firstName := u.firstName, lastName := u.lastName,
    role := u.role, isActive := u.isActive, permissions := u.permissions,
    createdAt := u.createdAt }

/-- Embeds `MongoProduct` document (`price`/`cost` are decimal strings). -/
structure MongoProduct where
  id : Nat
  businessId : Nat
  categoryId : Option Nat
  name : String
  description : Option String
  sku : Option String
  barcode : Option String
  price : String
  cost : String
  stock : Nat
  lowStockThreshold : Nat
  isActive : Bool
  createdAt : Nat
deriving Repr, DecidableEq

/-- Embeds `MongoCustomer` document. -/
structure MongoCustomer where
  id : Nat
  businessId : Nat
  firstName : String
  lastName : String
  email : Option String
  phone : Option String
  address : Option String
  loyaltyPoints : Nat
  totalSpent : String
  createdAt : Nat
deriving Repr, DecidableEq

/-- Embeds `MongoCategory` document. -/
structure MongoCategory where
  id : Nat
  businessId : Nat
  name : String
  description : Option String
  createdAt : Nat
deriving Repr, DecidableEq

/-- Embeds `MongoTransaction` document (`subtotal`/`taxAmount`/`total` are decimal
strings, stored and echoed verbatim by the read paths modelled here). -/
structure MongoTransaction where
  id : Nat
  businessId : Nat
  customerId : Option Nat
  userId : Nat
  transactionNumber : String
  subtotal : String
  taxAmount : String
  total : String
  paymentMethod : String
  status : String
  createdAt : Nat
deriving Repr, DecidableEq

/-- Embeds `MongoTransactionItem` document.  `unitPrice` and `total` are decimal
strings in the store; the top-products aggregation reads them through
`$toDouble`, so they are carried here as their numeric value. -/
structure MongoTransactionItem where
  id : Nat
  transactionId : Nat
  productId : Nat
  quantity : Nat
  unitPrice : Int
  total : Int
deriving Repr, DecidableEq

/-- The document store: one list per collection, in collection order, plus
the `counters` collection (`_id` = namespace string, `seq`). -/
structure DB where
  counters : List (String × Nat)
  users : List MongoUser
  categories : List MongoCategory
  products : List MongoProduct
  customers : List MongoCustomer
  transactions : List MongoTransaction
  transactionItems : List MongoTransactionItem
deriving Repr, DecidableEq

/-- Embeds `findOne` on the counters collection. -/
def countersFind (cs : List (String × Nat)) (ns : String) : Option Nat :=
  (cs.find? (fun c => c.1 == ns)).map (fun c => c.2)

/-- Embeds `findOneAndUpdate({_id: ns}, {$inc: {seq: 1}}, {upsert: true})` on the
counters collection: bump the (unique) document for `ns`, inserting
`seq = 1` when absent. -/
def countersInc (cs : List (String × Nat)) (ns : String) : List (String × Nat) :=
  match cs with
  | [] => [(ns, 1)]
  | c :: rest => if c.1 == ns then (c.1, c.2 + 1) :: rest else c :: countersInc rest ns

/-- Embeds `MongoStorage.getNextId`: atomically increment-and-read the counter for
`collection`, returning the post-increment sequence value
(`counter?.value?.seq || counter?.seq || 1`). -/
def getNextId (db : DB) (collection : String) : Nat × DB :=
  let counters := countersInc db.counters collection
  ((countersFind counters collection).getD 1, { db with counters := counters })

/-- Run a trace of `getNextId` calls, recording `(namespace, issued id)`. -/
def runAlloc : DB → List String → List (String × Nat)
  | _, [] => []
  | db, ns :: rest =>
    let r := getNextId db ns
    (ns, r.1) :: runAlloc r.2 rest

/-- Embeds `deleteOne`: remove the first document matching the predicate,
returning whether `deletedCount > 0`. -/
def deleteFirst (p : MongoUser → Bool) : List MongoUser → Bool × List MongoUser
  | [] => (false, [])
  | u :: rest =>
    if p u then (true, rest)
    else
      let r := deleteFirst p rest
      (r.1, u :: r.2)

/-- Filter of `MongoStorage.deleteEmployee`:
`{ id, businessId, role: { $ne: 'admin' } }`. -/
def employeeDeleteFilter (i businessId : Nat) (u : MongoUser) : Bool :=
  u.id == i && u.businessId == businessId && u.role != "admin"

/-- Embeds `MongoStorage.deleteEmployee(id, businessId)`. -/
def deleteEmployee (db : DB) (i businessId : Nat) : Bool × DB :=
  let r := deleteFirst (employeeDeleteFilter i businessId) db.users
  (r.1, { db with users := r.2 })

/-- The `seq` value currently stored for a namespace, `0` when unseen. -/
def seqOf (db : DB) (ns : String) : Nat :=
  (countersFind db.counters ns).getD 0

theorem countersFind_inc_same (cs : List (String × Nat)) (ns : String) :
    countersFind (countersInc cs ns) ns = some ((countersFind cs ns).getD 0 + 1) := by
  induction cs with
  | nil => simp [countersInc, countersFind]
  | cons c rest ih =>
    by_cases h : c.1 = ns
    · simp [countersInc, countersFind, h]
    · have hb : (c.1 == ns) = false := beq_eq_false_iff_ne.mpr h
      simp [countersInc, countersFind, hb] at ih ⊢
      exact ih

theorem countersFind_inc_other (cs : List (String × Nat)) (ns ns' : String)
    (h : ns' ≠ ns) :
    countersFind (countersInc cs ns) ns' = countersFind cs ns' := by
  have hb0 : (ns == ns') = false := beq_eq_false_iff_ne.mpr (Ne.symm h)
  induction cs with
  | nil => simp [countersInc, countersFind, hb0]
  | cons c rest ih =>
    by_cases hc : c.1 = ns
    · have h1 : (c.1 == ns) = true := beq_iff_eq.mpr hc
      have h2 : (c.1 == ns') = false := by
        rw [hc]
        exact hb0
      simp [countersInc, countersFind, h1, h2]
    · have hb : (c.1 == ns) = false := beq_eq_false_iff_ne.mpr hc
      cases h2 : (c.1 == ns') with
      | true => simp [countersInc, countersFind, hb, h2]
      | false =>
        simp only [countersFind] at ih
        simp [countersInc, countersFind, hb, h2, ih]

theorem getNextId_eq (db : DB) (ns : String) :
    getNextId db ns = (seqOf db ns + 1,
      { db with counters := countersInc db.counters ns }) := by
  simp [getNextId, seqOf, countersFind_inc_same]

theorem seqOf_after_same (db : DB) (ns : String) :
    seqOf (getNextId db ns).2 ns = seqOf db ns + 1 := by
  simp [getNextId, seqOf, countersFind_inc_same]

theorem seqOf_after_other (db : DB) (ns ns' : String) (h : ns' ≠ ns) :
    seqOf (getNextId db ns).2 ns' = seqOf db ns' := by
  simp [getNextId, seqOf, countersFind_inc_other _ _ _ h]

theorem runAlloc_filter_range (trace : List String) (db : DB) (ns : String) :
    ((runAlloc db trace).filter (fun r => r.1 == ns)).map (fun r => r.2)
      = List.range' (seqOf db ns + 1) (trace.count ns) := by
  induction trace generalizing db with
  | nil => simp [runAlloc, List.count_nil]
  | cons m rest ih =>
    by_cases h : m = ns
    · subst h
      have hc : (rest.count m + 1) = (m :: rest).count m := by
        simp [List.count_cons]
      rw [← hc]
      simp only [runAlloc, getNextId_eq]
      have := ih { db with counters := countersInc db.counters m }
      have hs : seqOf { db with counters := countersInc db.counters m } m
          = seqOf db m + 1 := by
        simpa [getNextId_eq] using seqOf_after_same db m
      rw [hs] at this
      simp [List.range'_succ, this]
    · have hb : (m == ns) = false := beq_eq_false_iff_ne.mpr h
      simp only [runAlloc, getNextId_eq, List.count_cons, hb]
      have := ih { db with counters := countersInc db.counters m }
      have hs : seqOf { db with counters := countersInc db.counters m } ns
          = seqOf db ns := by
        simpa [getNextId_eq] using seqOf_after_other db m ns (Ne.symm h)
      rw [hs] at this
      simp [hb, this]

/-- C2: starting from a state whose counters collection has no document for
namespace `ns`, the ids issued for `ns` along any trace of `getNextId`
calls (arbitrarily interleaved with other namespaces) are exactly
`1, 2, …, k`: the first call returns 1, every later call returns a value
strictly greater than all earlier returns for that namespace, so ids are
pairwise distinct; and `deleteEmployee` never touches the counters
collection, so deleting an entity never makes an id reusable. -/
theorem getNextId_monotonic_ids (db : DB) (trace : List String) (ns : String)
    (hunseen : countersFind db.counters ns = none) :
    ((runAlloc db trace).filter (fun r => r.1 == ns)).map (fun r => r.2)
        = List.range' 1 (trace.count ns)
    ∧ List.Pairwise (· < ·)
        (((runAlloc db trace).filter (fun r => r.1 == ns)).map (fun r => r.2))
    ∧ (0 < trace.count ns →
        (((runAlloc db trace).filter (fun r => r.1 == ns)).map (fun r => r.2)).head?
          = some 1)
    ∧ (∀ i b, ((deleteEmployee db i b).2).counters = db.counters) := by
  have h0 : seqOf db ns = 0 := by simp [seqOf, hunseen]
  have hr := runAlloc_filter_range trace db ns
  rw [h0] at hr
  refine ⟨by simpa using hr, ?_, ?_, ?_⟩
  · rw [hr]
    simpa using List.pairwise_lt_range' 1 (trace.count ns)
  · intro hk
    rw [hr]
    cases hc : trace.count ns with
    | zero => omega
    | succ k => simp [List.range'_succ]
  · intro i b
    simp [deleteEmployee]

/-- Witness for C2 at a concrete trace: three allocations for `"users"`
interleaved with one for `"products"` issue ids 1, 2, 3. -/
theorem getNextId_monotonic_ids_witness :
    ((runAlloc ⟨[], [], [], [], [], [], []⟩
          ["users", "products", "users", "users"]).filter
        (fun r => r.1 == "users")).map (fun r => r.2)
      = List.range' 1 3 := by
  have h := getNextId_monotonic_ids ⟨[], [], [], [], [], [], []⟩
    ["users", "products", "users", "users"] "users" (by decide)
  simpa using h.1

/-- The session principal stored by the login/register routes
(`req.session.user`; its `permissions` field is optional). -/
structure SessionUser where
  id : Nat
  businessId : Nat
  username : String
  firstName : String
  lastName : String
  role : String
  permissions : Option Permissions
deriving Repr, DecidableEq

/-- Outcome of an express middleware gate: pass the request on (`next`),
reject with 401 (`unauthorized`) or with 403 (`forbidden`). -/
inductive GateResult where
  | next
  | unauthorized
  | forbidden
deriving Repr, DecidableEq

/-- Embeds `requirePermission(permission)` middleware: 401 without a session
user; otherwise pass iff `user.role === 'admin' ||
user.permissions?.[permission]`, else 403 "Access denied". -/
def requirePermission (cap : Capability) (sessionUser : Option SessionUser) :
    GateResult :=
  match sessionUser with
  | none => .unauthorized
  | some user =>
    if user.role == "admin" || (user.permissions.map (fun p => p.flag cap)).getD false
    then .next
    else .forbidden

/-- Embeds `requireAdmin` middleware: 401 without a session user, 403 unless
`role === 'admin'`. -/
def requireAdmin (sessionUser : Option SessionUser) : GateResult :=
  match sessionUser with
  | none => .unauthorized
  | some user => if user.role != "admin" then .forbidden else .next

/-- C4: the `requirePermission(c)` gate admits a request exactly when a
session principal exists and it has role `admin` or its permission flag
for `c` reads true; an existing principal with neither gets 403, a missing
principal gets 401, and an `admin` principal passes every capability check
regardless of its flags. -/
theorem requirePermission_correct (cap : Capability) (s : Option SessionUser) :
    (requirePermission cap s = .next ↔
      ∃ u, s = some u ∧
        (u.role = "admin" ∨ (u.permissions.map (fun p => p.flag cap)).getD false = true)) ∧
    (∀ u, s = some u → u.role ≠ "admin" →
      (u.permissions.map (fun p => p.flag cap)).getD false = false →
      requirePermission cap s = .forbidden) ∧
    (s = none → requirePermission cap s = .unauthorized) ∧
    (∀ u, s = some u → u.role = "admin" → requirePermission cap s = .next) := by
  refine ⟨?_, ?_, ?_, ?_⟩
  · constructor
    · intro h
      cases s with
      | none => simp [requirePermission] at h
      | some u =>
        refine ⟨u, rfl, ?_⟩
        by_cases hr : u.role = "admin"
        · exact Or.inl hr
        · right
          by_cases hp : (u.permissions.map (fun p => p.flag cap)).getD false = true
          · exact hp
          · have hb : (u.role == "admin") = false := beq_eq_false_iff_ne.mpr hr
            have hpf : (u.permissions.map (fun p => p.flag cap)).getD false = false := by
              simpa using hp
            simp [requirePermission, hb, hpf] at h
    · rintro ⟨u, rfl, h | h⟩
      · simp [requirePermission, h]
      · simp [requirePermission, h]
  · intro u hs hr hp
    subst hs
    have hb : (u.role == "admin") = false := beq_eq_false_iff_ne.mpr hr
    simp [requirePermission, hb, hp]
  · intro hs
    subst hs
    rfl
  · intro u hs hr
    subst hs
    simp [requirePermission, hr]

/-- An admin principal whose six permission flags are all false. -/
def adminNoFlags : SessionUser :=
  { id := 1, businessId := 1, username := "boss", firstName := "A",
    lastName := "B", role := "admin",
    permissions := some ⟨false, false, false, false, false, false⟩ }

/-- Witness for C4: the all-flags-false admin passes the `settings` check,
and a missing session principal gets 401. -/
theorem requirePermission_correct_witness :
    requirePermission .settings (some adminNoFlags) = .next ∧
    requirePermission .settings none = .unauthorized :=
  ⟨(requirePermission_correct .settings (some adminNoFlags)).2.2.2 adminNoFlags rfl rfl,
   (requirePermission_correct .settings none).2.2.1 rfl⟩

/-- Run a sequence of `deleteEmployee` calls (pairs `(id, businessId)`). -/
def runDeletes (db : DB) : List (Nat × Nat) → DB
  | [] => db
  | c :: rest => runDeletes (deleteEmployee db c.1 c.2).2 rest

theorem deleteFirst_of_none (p : MongoUser → Bool) (l : List MongoUser)
    (h : ∀ u ∈ l, p u = false) : deleteFirst p l = (false, l) := by
  induction l with
  | nil => rfl
  | cons u rest ih =>
    have hu := h u (List.mem_cons_self u rest)
    have hrest := ih (fun v hv => h v (List.mem_cons_of_mem u hv))
    simp [deleteFirst, hu, hrest]

theorem deleteFirst_filter_admin (p : MongoUser → Bool) (l : List MongoUser)
    (hp : ∀ u, p u = true → u.role ≠ "admin") :
    (deleteFirst p l).2.filter (fun u => u.role == "admin")
      = l.filter (fun u => u.role == "admin") := by
  induction l with
  | nil => rfl
  | cons u rest ih =>
    cases hu : p u with
    | true =>
      have : (u.role == "admin") = false := beq_eq_false_iff_ne.mpr (hp u hu)
      simp [deleteFirst, hu, this]
    | false =>
      simp only [deleteFirst, hu, Bool.false_eq_true, if_false]
      simp [List.filter_cons, ih]

theorem deleteEmployee_preserves_admins (db : DB) (i T : Nat) :
    ((deleteEmployee db i T).2).users.filter (fun u => u.role == "admin")
      = db.users.filter (fun u => u.role == "admin") := by
  apply deleteFirst_filter_admin
  intro u hu
  simp only [employeeDeleteFilter, Bool.and_eq_true, bne_iff_ne] at hu
  exact hu.2

theorem runDeletes_preserves_admins (db : DB) (calls : List (Nat × Nat)) :
    (runDeletes db calls).users.filter (fun u => u.role == "admin")
      = db.users.filter (fun u => u.role == "admin") := by
  induction calls generalizing db with
  | nil => rfl
  | cons c rest ih =>
    calc (runDeletes (deleteEmployee db c.1 c.2).2 rest).users.filter
            (fun u => u.role == "admin")
        = ((deleteEmployee db c.1 c.2).2).users.filter (fun u => u.role == "admin") :=
          ih _
      _ = db.users.filter (fun u => u.role == "admin") :=
          deleteEmployee_preserves_admins db c.1 c.2

/-- C9: when every stored user carrying the targeted `(id, businessId)`
pair is an admin, `deleteEmployee` deletes nothing and returns `false`
(surfaced as 404 by the route); and the stored admin users are unchanged
by any sequence of `deleteEmployee` calls, because the delete filter
conjoins `role ≠ 'admin'`. -/
theorem deleteEmployee_spares_admins (db : DB) (i T : Nat)
    (hadm : ∀ u ∈ db.users, u.id = i → u.businessId = T → u.role = "admin") :
    deleteEmployee db i T = (false, db) ∧
    (∀ calls : List (Nat × Nat),
      (runDeletes db calls).users.filter (fun u => u.role == "admin")
        = db.users.filter (fun u => u.role == "admin")) := by
  constructor
  · have hnone : ∀ u ∈ db.users, employeeDeleteFilter i T u = false := by
      intro u hu
      by_cases hid : u.id = i
      · by_cases hb : u.businessId = T
        · have : u.role = "admin" := hadm u hu hid hb
          simp [employeeDeleteFilter, this]
        · simp [employeeDeleteFilter, hb]
      · simp [employeeDeleteFilter, hid]
    simp [deleteEmployee, deleteFirst_of_none _ _ hnone]
  · exact fun calls => runDeletes_preserves_admins db calls

/-- A store holding a single admin user (id 1, business 1). -/
def soleAdminDb : DB :=
  ⟨[("users", 1)],
   [{ id := 1, businessId := 1, username := "boss", email := "boss@x.co",
      password := .bhash "pw", firstName := "A", lastName := "B",
      role := "admin", isActive := true,
      permissions := ⟨true, true, true, true, true, true⟩, createdAt := 0 }],
   [], [], [], [], []⟩

/-- Witness for C9: deleting the sole admin by its own id deletes nothing. -/
theorem deleteEmployee_spares_admins_witness :
    deleteEmployee soleAdminDb 1 1 = (false, soleAdminDb) :=
  (deleteEmployee_spares_admins soleAdminDb 1 1 (by decide)).1

/-- Embeds `createUser` payload (`Omit<MongoUser, 'id' | 'createdAt'>`): the
`password` field is the caller-supplied plaintext; `permissions` may be
absent at runtime (`user.permissions || defaultPermissions`). -/
structure CreateUserPayload where
  businessId : Nat
  username : String
  email : String
  password : String
  firstName : String
  lastName : String
  role : String
  isActive : Bool
  permissions : Option Permissions
deriving Repr, DecidableEq

/-- The role-dependent default permission flags of
`MongoStorage.createUser`. -/
def defaultPermissions (role : String) : Permissions :=
  if role == "admin" then ⟨true, true, true, true, true, true⟩
  else ⟨true, false, false, false, false, false⟩

/-- Embeds `MongoStorage.createUser`: allocate an id from the `users` namespace,
hash the supplied plaintext password, default the permission flags by role
when the payload supplies none, insert, and return the new user without
its password field. -/
def createUser (db : DB) (now : Nat) (payload : CreateUserPayload) :
    UserSafe × DB :=
  let r := getNextId db "users"
  let newUser : MongoUser :=
    { id := r.1, businessId := payload.businessId, username := payload.username,
      email := payload.email, password := bcryptHash payload.password,
      firstName := payload.firstName, lastName := payload.lastName,
      role := payload.role, isActive := payload.isActive,
      permissions := payload.permissions.getD (defaultPermissions payload.role),
      createdAt := now }
  (stripPassword newUser, { r.2 with users := r.2.users ++ [newUser] })

/-- Embeds `MongoStorage.getEmployeeCount`:
`countDocuments({ businessId, role: { $ne: 'admin' } })`. -/
def getEmployeeCount (db : DB) (businessId : Nat) : Nat :=
  (db.users.filter (fun u => u.businessId == businessId && u.role != "admin")).length

/-- Outcome of `POST /api/employees`: the 400 "Maximum of 10 employees
allowed" rejection, or the created employee. -/
inductive EmployeeCreateResult where
  | capacityError
  | created (u : UserSafe)
deriving Repr, DecidableEq

/-- Request-body fields that `POST /api/employees` forwards into the
insert payload (schema validation elided; `businessId`, `role` and
`isActive` are overridden by the route itself). -/
structure EmployeeBody where
  username : String
  email : String
  password : String
  firstName : String
  lastName : String
  permissions : Option Permissions
deriving Repr, DecidableEq

/-- The `POST /api/employees` handler body (after `requireAdmin`): reject
when `getEmployeeCount(businessId) >= 10`, otherwise create the employee
with `role: 'employee'`, `isActive: true` under the session's business. -/
def postEmployees (db : DB) (now sessionBusinessId : Nat) (body : EmployeeBody) :
    EmployeeCreateResult × DB :=
  if 10 ≤ getEmployeeCount db sessionBusinessId then (.capacityError, db)
  else
    let r := createUser db now
      { businessId := sessionBusinessId, username := body.username,
        email := body.email, password := body.password,
        firstName := body.firstName, lastName := body.lastName,
        role := "employee", isActive := true, permissions := body.permissions }
    (.created r.1, r.2)

/-- C5: with ten or more non-admin users already stored for the business,
`POST /api/employees` fails with the capacity error and returns the store
completely unchanged (the check precedes every mutation); and a creation
can only succeed when the prior count is at most 9. -/
theorem employeeCap_enforced (db : DB) (now T : Nat) (body : EmployeeBody) :
    (10 ≤ getEmployeeCount db T → postEmployees db now T body = (.capacityError, db)) ∧
    (∀ u, (postEmployees db now T body).1 = .created u → getEmployeeCount db T ≤ 9) := by
  constructor
  · intro h
    simp [postEmployees, h]
  · intro u h
    by_cases hc : 10 ≤ getEmployeeCount db T
    · simp [postEmployees, hc] at h
    · omega

/-- One of ten identical employees filling business 1 to capacity. -/
def capEmployee (n : Nat) : MongoUser :=
  { id := n + 2, businessId := 1, username := "emp", email := "emp@x.co",
    password := .bhash "pw", firstName := "E", lastName := "W",
    role := "employee", isActive := true,
    permissions := ⟨true, false, false, false, false, false⟩, createdAt := 0 }

/-- A store whose business 1 already employs ten non-admin users. -/
def capDb : DB :=
  ⟨[("users", 12)], (List.range 10).map capEmployee, [], [], [], [], []⟩

/-- Witness for C5: the eleventh employee for business 1 is rejected and
the store is untouched. -/
theorem employeeCap_enforced_witness :
    postEmployees capDb 0 1 ⟨"x", "x@x.co", "pw", "X", "Y", none⟩
      = (.capacityError, capDb) :=
  (employeeCap_enforced capDb 0 1 ⟨"x", "x@x.co", "pw", "X", "Y", none⟩).1 (by decide)

/-- C8: `createUser` appends exactly one user document, whose stored
password is the bcrypt hash of the supplied plaintext (in particular never
a plaintext credential); when the payload carries no permissions the
stored flags default by role — every flag true for `admin`, pos-only
otherwise; and the value returned to the caller is the stored document
with its password field stripped (`UserSafe` has no password field). -/
theorem createUser_hashes_and_strips (db : DB) (now : Nat)
    (payload : CreateUserPayload) :
    ∃ stored : MongoUser,
      (createUser db now payload).2.users = db.users ++ [stored] ∧
      stored.password = bcryptHash payload.password ∧
      (∀ pw, stored.password ≠ PwStored.plain pw) ∧
      stored.permissions = payload.permissions.getD (defaultPermissions payload.role) ∧
      (payload.permissions = none → payload.role = "admin" →
        stored.permissions = ⟨true, true, true, true, true, true⟩) ∧
      (payload.permissions = none → payload.role ≠ "admin" →
        stored.permissions = ⟨true, false, false, false, false, false⟩) ∧
      (createUser db now payload).1 = stripPassword stored := by
  refine ⟨_, rfl, rfl, ?_, rfl, ?_, ?_, rfl⟩
  · intro pw
    simp [bcryptHash]
  · intro hnone hadmin
    simp [hnone, defaultPermissions, hadmin]
  · intro hnone hne
    simp [hnone, defaultPermissions, beq_eq_false_iff_ne.mpr hne]

/-- Witness for C8 at a concrete payload (an employee with no permissions
supplied, created in an empty store). -/
theorem createUser_hashes_and_strips_witness :
    ∃ stored : MongoUser,
      (createUser ⟨[], [], [], [], [], [], []⟩ 7
          ⟨1, "eve", "eve@x.co", "pw", "E", "V", "employee", true, none⟩).2.users
        = [] ++ [stored] ∧
      stored.password = bcryptHash "pw" ∧
      (∀ pw, stored.password ≠ PwStored.plain pw) ∧
      stored.permissions = (none : Option Permissions).getD (defaultPermissions "employee") ∧
      ((none : Option Permissions) = none → "employee" = "admin" →
        stored.permissions = ⟨true, true, true, true, true, true⟩) ∧
      ((none : Option Permissions) = none → "employee" ≠ "admin" →
        stored.permissions = ⟨true, false, false, false, false, false⟩) ∧
      (createUser ⟨[], [], [], [], [], [], []⟩ 7
          ⟨1, "eve", "eve@x.co", "pw", "E", "V", "employee", true, none⟩).1
        = stripPassword stored :=
  createUser_hashes_and_strips ⟨[], [], [], [], [], [], []⟩ 7
    ⟨1, "eve", "eve@x.co", "pw", "E", "V", "employee", true, none⟩

/-- Embeds `findOne({$or: [{username}, {email}], isActive: true})` predicate of
the authenticate read path. -/
def userMatchesIdent (ident : String) (u : MongoUser) : Bool :=
  (u.username == ident || u.email == ident) && u.isActive

/-- Embeds `updateOne({ id }, { $set: { password } })` on the users collection:
rewrite the password of the first document with the given `id`. -/
def updatePasswordById : List MongoUser → Nat → PwStored → List MongoUser
  | [], _, _ => []
  | u :: rest, uid, pw =>
    if u.id == uid then { u with password := pw } :: rest
    else u :: updatePasswordById rest uid pw

/-- Embeds `MongoStorage.getUserByUsernameAndPassword`: find the first active
user whose username or email equals the trimmed identifier; accept on
bcrypt comparison, or — legacy fallback — on exact plaintext equality, in
which case the stored password is synchronously rehashed and persisted
before returning; otherwise return nothing.  The successful return value
is the full user document (password included). -/
def getUserByUsernameAndPassword (db : DB) (username password : String) :
    Option MongoUser × DB :=
  let trimmedUsername := trimStr username
  match db.users.find? (userMatchesIdent trimmedUsername) with
  | none => (none, db)
  | some user =>
    let isPasswordValid := bcryptCompare password user.password
    if !isPasswordValid && pwEqPlain user.password password then
      let hashedPassword := bcryptHash password
      (some { user with password := hashedPassword },
       { db with users := updatePasswordById db.users user.id hashedPassword })
    else if isPasswordValid then (some user, db)
    else (none, db)

theorem find?_updatePasswordById (users : List MongoUser) (s : String)
    (u : MongoUser) (pw : PwStored)
    (hfind : users.find? (userMatchesIdent s) = some u)
    (hnodup : (users.map (fun v => v.id)).Nodup) :
    (updatePasswordById users u.id pw).find? (userMatchesIdent s)
      = some { u with password := pw } := by
  induction users with
  | nil => simp at hfind
  | cons v rest ih =>
    cases hp : userMatchesIdent s v with
    | true =>
      have hv : v = u := by
        simp [List.find?_cons, hp] at hfind
        exact hfind
      subst hv
      have hm : userMatchesIdent s { v with password := pw } = true := by
        simpa [userMatchesIdent] using hp
      simp [updatePasswordById, List.find?_cons, hm]
    | false =>
      have hfind' : rest.find? (userMatchesIdent s) = some u := by
        simpa [List.find?_cons, hp] using hfind
      have hmem : u ∈ rest := List.mem_of_find?_eq_some hfind'
      rw [List.map_cons, List.nodup_cons] at hnodup
      have hne : v.id ≠ u.id := by
        intro h
        exact hnodup.1 (h ▸ List.mem_map_of_mem (fun w => w.id) hmem)
      have hb : (v.id == u.id) = false := beq_eq_false_iff_ne.mpr hne
      simp [updatePasswordById, hb, List.find?_cons, hp, ih hfind' hnodup.2]

/-- C3: for a stored active legacy user whose password field holds the
plaintext `P`, authenticating with a matching identifier and `P` succeeds
and persists `bcryptHash P` in place of the plaintext before returning; a
second identical call then succeeds through hash comparison and leaves the
store exactly as the first call left it — the record is not rewritten
again and the plaintext fallback is not re-taken. -/
theorem legacy_password_migration (db : DB) (username P : String)
    (u : MongoUser)
    (hfind : db.users.find? (userMatchesIdent (trimStr username)) = some u)
    (hplain : u.password = PwStored.plain P)
    (hnodup : (db.users.map (fun v => v.id)).Nodup) :
    getUserByUsernameAndPassword db username P
        = (some { u with password := bcryptHash P },
           { db with users := updatePasswordById db.users u.id (bcryptHash P) }) ∧
    ((getUserByUsernameAndPassword db username P).2).users.find?
        (userMatchesIdent (trimStr username)) = some { u with password := bcryptHash P } ∧
    getUserByUsernameAndPassword (getUserByUsernameAndPassword db username P).2
        username P
      = (some { u with password := bcryptHash P },
         (getUserByUsernameAndPassword db username P).2) := by
  have hcmp : bcryptCompare P u.password = false := by
    simp [hplain, bcryptCompare]
  have heq : pwEqPlain u.password P = true := by
    simp [hplain, pwEqPlain]
  have hfirst : getUserByUsernameAndPassword db username P
      = (some { u with password := bcryptHash P },
         { db with users := updatePasswordById db.users u.id (bcryptHash P) }) := by
    simp [getUserByUsernameAndPassword, hfind, hcmp, heq]
  have hfind2 : (updatePasswordById db.users u.id (bcryptHash P)).find?
      (userMatchesIdent (trimStr username)) = some { u with password := bcryptHash P } :=
    find?_updatePasswordById db.users (trimStr username) u (bcryptHash P) hfind hnodup
  refine ⟨hfirst, by simpa [hfirst] using hfind2, ?_⟩
  rw [hfirst]
  have hfind2' : (updatePasswordById db.users u.id (PwStored.bhash P)).find?
      (userMatchesIdent (trimStr username))
        = some { u with password := PwStored.bhash P } := by
    simpa [bcryptHash] using hfind2
  simp [getUserByUsernameAndPassword, hfind2', bcryptCompare, bcryptHash, pwEqPlain]

/-- An active user whose stored password is still the legacy plaintext. -/
def legacyAlice : MongoUser :=
  { id := 1, businessId := 1, username := "alice", email := "alice@x.co",
    password := .plain "secret", firstName := "A", lastName := "L",
    role := "employee", isActive := true,
    permissions := ⟨true, false, false, false, false, false⟩, createdAt := 0 }

/-- A store holding only the legacy user. -/
def legacyDb : DB :=
  ⟨[("users", 1)], [legacyAlice], [], [], [], [], []⟩

/-- Witness for C3: authenticating the legacy user migrates the stored
plaintext to its hash, and a second call succeeds without touching the
store again. -/
theorem legacy_password_migration_witness :
    ((getUserByUsernameAndPassword legacyDb "alice" "secret").2).users.find?
        (userMatchesIdent (trimStr "alice"))
      = some { legacyAlice with password := bcryptHash "secret" } ∧
    getUserByUsernameAndPassword
        (getUserByUsernameAndPassword legacyDb "alice" "secret").2 "alice" "secret"
      = (some { legacyAlice with password := bcryptHash "secret" },
         (getUserByUsernameAndPassword legacyDb "alice" "secret").2) :=
  ⟨(legacy_password_migration legacyDb "alice" "secret" legacyAlice
      (by decide) rfl (by decide)).2.1,
   (legacy_password_migration legacyDb "alice" "secret" legacyAlice
      (by decide) rfl (by decide)).2.2⟩

/-- C10: a successful `getUserByUsernameAndPassword` returns one of the
stored user documents of the post-call store — the full `MongoUser`
record, password field included (on the legacy path, the freshly migrated
hash) — unlike `createUser`, whose return type has the password stripped. -/
theorem authenticate_returns_full_document (db : DB) (username password : String)
    (hnodup : (db.users.map (fun v => v.id)).Nodup)
    (u : MongoUser) (db' : DB)
    (h : getUserByUsernameAndPassword db username password = (some u, db')) :
    u ∈ db'.users := by
  unfold getUserByUsernameAndPassword at h
  cases hfind : db.users.find? (userMatchesIdent (trimStr username)) with
  | none => simp [hfind] at h
  | some user =>
    simp only [hfind] at h
    by_cases hlegacy :
        (!bcryptCompare password user.password && pwEqPlain user.password password) = true
    · rw [if_pos hlegacy] at h
      have hu : u = { user with password := bcryptHash password } := by
        have := congrArg Prod.fst h
        simpa using this.symm
      have hdb : db' = { db with
          users := updatePasswordById db.users user.id (bcryptHash password) } := by
        have := congrArg Prod.snd h
        exact this.symm
      subst hu hdb
      exact List.mem_of_find?_eq_some
        (find?_updatePasswordById db.users (trimStr username) user
          (bcryptHash password) hfind hnodup)
    · rw [if_neg (by simpa using hlegacy)] at h
      cases hcmp : bcryptCompare password user.password with
      | true =>
        simp only [hcmp, if_true] at h
        have hu : u = user := by
          have := congrArg Prod.fst h
          simpa using this.symm
        have hdb : db' = db := by
          have := congrArg Prod.snd h
          exact this.symm
        subst hu hdb
        exact List.mem_of_find?_eq_some hfind
      | false => simp [hcmp] at h

/-- A store holding a single active user with a hashed password. -/
def hashedDb : DB :=
  ⟨[("users", 1)],
   [{ id := 1, businessId := 1, username := "bob", email := "bob@x.co",
      password := .bhash "pw", firstName := "B", lastName := "O",
      role := "employee", isActive := true,
      permissions := ⟨true, false, false, false, false, false⟩, createdAt := 0 }],
   [], [], [], [], []⟩

/-- Witness for C10: the document returned by a successful authenticate is
a member of the stored users, password field and all. -/
theorem authenticate_returns_full_document_witness :
    (getUserByUsernameAndPassword hashedDb "bob" "pw").1.getD
        { id := 0, businessId := 0, username := "", email := "",
          password := .plain "", firstName := "", lastName := "",
          role := "", isActive := false,
          permissions := ⟨false, false, false, false, false, false⟩, createdAt := 0 }
      ∈ ((getUserByUsernameAndPassword hashedDb "bob" "pw").2).users :=
  authenticate_returns_full_document hashedDb "bob" "pw" (by decide)
    ((getUserByUsernameAndPassword hashedDb "bob" "pw").1.getD
      { id := 0, businessId := 0, username := "", email := "",
        password := .plain "", firstName := "", lastName := "",
        role := "", isActive := false,
        permissions := ⟨false, false, false, false, false, false⟩, createdAt := 0 })
    (getUserByUsernameAndPassword hashedDb "bob" "pw").2 (by decide)

/-- Insert an element into a sorted list, keeping earlier elements first
on ties (one legal realization of the aggregation `$sort`, whose tie order
Mongo leaves unspecified). -/
def insertBy {α : Type} (le : α → α → Bool) (a : α) : List α → List α
  | [] => [a]
  | b :: rest => if le a b then a :: b :: rest else b :: insertBy le a rest

/-- Stable insertion sort realizing the aggregation `$sort` stage. -/
def sortBy {α : Type} (le : α → α → Bool) : List α → List α
  | [] => []
  | a :: rest => insertBy le a (sortBy le rest)

theorem perm_insertBy {α : Type} (le : α → α → Bool) (a : α) (l : List α) :
    (insertBy le a l).Perm (a :: l) := by
  induction l with
  | nil => exact List.Perm.refl _
  | cons b rest ih =>
    by_cases h : le a b = true
    · simp [insertBy, h]
    · have h1 : insertBy le a (b :: rest) = b :: insertBy le a rest := by
        simp [insertBy, h]
      rw [h1]
      exact (List.Perm.cons b ih).trans (List.Perm.swap a b rest)

theorem perm_sortBy {α : Type} (le : α → α → Bool) (l : List α) :
    (sortBy le l).Perm l := by
  induction l with
  | nil => exact List.Perm.refl _
  | cons a rest ih =>
    exact ((perm_insertBy le a (sortBy le rest)).trans (List.Perm.cons a ih))

theorem mem_sortBy {α : Type} (le : α → α → Bool) (l : List α) (x : α) :
    x ∈ sortBy le l ↔ x ∈ l :=
  (perm_sortBy le l).mem_iff

theorem pairwise_insertBy {α : Type} (le : α → α → Bool)
    (htot : ∀ a b, le a b = true ∨ le b a = true)
    (htrans : ∀ a b c, le a b = true → le b c = true → le a c = true)
    (a : α) (l : List α)
    (h : List.Pairwise (fun x y => le x y = true) l) :
    List.Pairwise (fun x y => le x y = true) (insertBy le a l) := by
  induction l with
  | nil => simp [insertBy]
  | cons b rest ih =>
    rw [List.pairwise_cons] at h
    by_cases hab : le a b = true
    · have h1 : insertBy le a (b :: rest) = a :: b :: rest := by
        simp [insertBy, hab]
      rw [h1]
      refine List.pairwise_cons.mpr ⟨?_, List.pairwise_cons.mpr h⟩
      intro c hc
      rcases List.mem_cons.mp hc with rfl | hc
      · exact hab
      · exact htrans a b c hab (h.1 c hc)
    · have hba : le b a = true := (htot a b).resolve_left hab
      have h1 : insertBy le a (b :: rest) = b :: insertBy le a rest := by
        simp [insertBy, hab]
      rw [h1]
      refine List.pairwise_cons.mpr ⟨?_, ih h.2⟩
      intro c hc
      have hc2 : c = a ∨ c ∈ rest := by
        have := (perm_insertBy le a rest).mem_iff.mp hc
        simpa using this
      rcases hc2 with rfl | hc'
      · exact hba
      · exact h.1 c hc'

theorem pairwise_sortBy {α : Type} (le : α → α → Bool)
    (htot : ∀ a b, le a b = true ∨ le b a = true)
    (htrans : ∀ a b c, le a b = true → le b c = true → le a c = true)
    (l : List α) :
    List.Pairwise (fun x y => le x y = true) (sortBy le l) := by
  induction l with
  | nil => simp [sortBy]
  | cons a rest ih => exact pairwise_insertBy le htot htrans a (sortBy le rest) ih

/-- Embeds `MongoStorage.getProducts`: `find({ businessId, isActive: true })`. -/
def getProducts (db : DB) (businessId : Nat) : List MongoProduct :=
  db.products.filter (fun p => p.businessId == businessId && p.isActive)

/-- Embeds `MongoStorage.getProduct`: `findOne({ id, businessId })`. -/
def getProduct (db : DB) (i businessId : Nat) : Option MongoProduct :=
  db.products.find? (fun p => p.id == i && p.businessId == businessId)

/-- Embeds `MongoStorage.getLowStockProducts`:
`find({ businessId, isActive: true, $expr: { $lte: ['$stock', '$lowStockThreshold'] } })`
— the threshold compared is the product's own field. -/
def getLowStockProducts (db : DB) (businessId : Nat) : List MongoProduct :=
  db.products.filter (fun p =>
    p.businessId == businessId && p.isActive
      && decide (p.stock ≤ p.lowStockThreshold))

/-- Embeds `MongoStorage.getCustomers`: `find({ businessId })`. -/
def getCustomers (db : DB) (businessId : Nat) : List MongoCustomer :=
  db.customers.filter (fun c => c.businessId == businessId)

/-- Embeds `MongoStorage.getCustomer`: `findOne({ id, businessId })`. -/
def getCustomer (db : DB) (i businessId : Nat) : Option MongoCustomer :=
  db.customers.find? (fun c => c.id == i && c.businessId == businessId)

/-- Embeds `MongoStorage.getCategories`: `find({ businessId })`. -/
def getCategories (db : DB) (businessId : Nat) : List MongoCategory :=
  db.categories.filter (fun c => c.businessId == businessId)

/-- Embeds `MongoStorage.getEmployees`:
`find({ businessId, role: { $ne: 'admin' } }, { projection: { password: 0 } })`. -/
def getEmployees (db : DB) (businessId : Nat) : List UserSafe :=
  (db.users.filter (fun u => u.businessId == businessId && u.role != "admin")).map
    stripPassword

/-- The `user` sub-document projected into a transaction row by the
`getTransactions` pipeline. -/
structure TxUserView where
  id : Nat
  username : String
  email : String
  firstName : String
  lastName : String
  role : String
  isActive : Bool
deriving Repr, DecidableEq

/-- One row of the `getTransactions` aggregation output: the transaction's
own fields plus its joined user and customer sub-documents. -/
structure TransactionView where
  id : Nat
  businessId : Nat
  customerId : Option Nat
  userId : Nat
  transactionNumber : String
  subtotal : String
  taxAmount : String
  total : String
  paymentMethod : String
  status : String
  createdAt : Nat
  user : Option TxUserView
  customer : Option MongoCustomer
deriving Repr, DecidableEq

/-- The `$lookup`/`$project` tail of the `getTransactions` pipeline
applied to one matched transaction (`$arrayElemAt [..., 0]` takes the
first joined document). -/
def txView (db : DB) (t : MongoTransaction) : TransactionView :=
  { id := t.id, businessId := t.businessId, customerId := t.customerId,
    userId := t.userId, transactionNumber := t.transactionNumber,
    subtotal := t.subtotal, taxAmount := t.taxAmount, total := t.total,
    paymentMethod := t.paymentMethod, status := t.status,
    createdAt := t.createdAt,
    user := (db.users.find? (fun u => u.id == t.userId)).map (fun u =>
      ⟨u.id, u.username, u.email, u.firstName, u.lastName, u.role, u.isActive⟩),
    customer := t.customerId.bind (fun cid =>
      db.customers.find? (fun c => c.id == cid)) }

/-- Embeds `MongoStorage.getTransactions`: `$match {businessId}`, `$sort
{createdAt: -1}`, optional `$limit`, then the user/customer lookups and
the projection. -/
def getTransactions (db : DB) (businessId : Nat) (limit : Option Nat) :
    List TransactionView :=
  let matched := db.transactions.filter (fun t => t.businessId == businessId)
  let sorted := sortBy (fun a b => decide (b.createdAt ≤ a.createdAt)) matched
  let limited := match limit with
    | some n => sorted.take n
    | none => sorted
  limited.map (txView db)

/-- C6: `getLowStockProducts T` returns exactly the stored products with
`businessId = T`, `isActive = true` and `stock ≤ lowStockThreshold` — the
threshold compared is the product's own field, and equality counts as low
stock. -/
theorem getLowStockProducts_characterization (db : DB) (T : Nat)
    (p : MongoProduct) :
    p ∈ getLowStockProducts db T ↔
      p ∈ db.products ∧ p.businessId = T ∧ p.isActive = true ∧
        p.stock ≤ p.lowStockThreshold := by
  simp only [getLowStockProducts, List.mem_filter, Bool.and_eq_true,
    beq_iff_eq, decide_eq_true_eq]
  tauto

/-- Boundary product at stock 5 with threshold 5. -/
def stockFive : MongoProduct :=
  { id := 1, businessId := 1, categoryId := none, name := "a", description := none,
    sku := none, barcode := none, price := "10.00", cost := "5.00",
    stock := 5, lowStockThreshold := 5, isActive := true, createdAt := 0 }

/-- Boundary product at stock 6 with threshold 5. -/
def stockSix : MongoProduct :=
  { id := 2, businessId := 1, categoryId := none, name := "b", description := none,
    sku := none, barcode := none, price := "10.00", cost := "5.00",
    stock := 6, lowStockThreshold := 5, isActive := true, createdAt := 0 }

/-- A store holding only the two boundary products under business 1. -/
def borderDb : DB :=
  ⟨[("products", 2)], [], [], [stockFive, stockSix], [], [], []⟩

/-- Witness for C6: stock 5 / threshold 5 is reported as low stock, stock
6 / threshold 5 is not. -/
theorem getLowStockProducts_characterization_witness :
    stockFive ∈ getLowStockProducts borderDb 1 ∧
    stockSix ∉ getLowStockProducts borderDb 1 :=
  ⟨(getLowStockProducts_characterization borderDb 1 stockFive).mpr
     ⟨by decide, rfl, rfl, by decide⟩,
   fun h => absurd
     ((getLowStockProducts_characterization borderDb 1 stockSix).mp h).2.2.2
     (by decide)⟩

/-- C1 (amended): every entity returned by the tenant-scoped reads
`getProduct`, `getProducts`, `getCustomer`, `getCustomers`,
`getCategories`, `getTransactions`, `getEmployees` and
`getLowStockProducts` under tenant `T` has `businessId = T`, for every
store state — in particular even when entities of distinct tenants carry
numerically equal `id` values, because each of these queries conjoins
`businessId` with its entity filter.  (`getTopProducts` is excluded: it
scopes only the parent transaction and is refuted separately.) -/
theorem tenant_scoped_reads (db : DB) (T i : Nat) (limo : Option Nat) :
    (∀ p, getProduct db i T = some p → p.businessId = T) ∧
    (∀ p ∈ getProducts db T, p.businessId = T) ∧
    (∀ c, getCustomer db i T = some c → c.businessId = T) ∧
    (∀ c ∈ getCustomers db T, c.businessId = T) ∧
    (∀ c ∈ getCategories db T, c.businessId = T) ∧
    (∀ v ∈ getTransactions db T limo, v.businessId = T) ∧
    (∀ u ∈ getEmployees db T, u.businessId = T) ∧
    (∀ p ∈ getLowStockProducts db T, p.businessId = T) := by
  refine ⟨?_, ?_, ?_, ?_, ?_, ?_, ?_, ?_⟩
  · intro p hp
    have := List.find?_some hp
    simp only [Bool.and_eq_true, beq_iff_eq] at this
    exact this.2
  · intro p hp
    have := (List.mem_filter.mp hp).2
    simp only [Bool.and_eq_true, beq_iff_eq] at this
    exact this.1
  · intro c hc
    have := List.find?_some hc
    simp only [Bool.and_eq_true, beq_iff_eq] at this
    exact this.2
  · intro c hc
    have := (List.mem_filter.mp hc).2
    simpa using this
  · intro c hc
    have := (List.mem_filter.mp hc).2
    simpa using this
  · intro v hv
    simp only [getTransactions, List.mem_map] at hv
    obtain ⟨t, ht, rfl⟩ := hv
    have htm : t ∈ db.transactions.filter (fun t => t.businessId == T) := by
      cases limo with
      | none =>
        exact (mem_sortBy _ _ t).mp ht
      | some n =>
        exact (mem_sortBy _ _ t).mp ((List.take_sublist n _).subset ht)
    have := (List.mem_filter.mp htm).2
    simpa [txView] using this
  · intro u hu
    simp only [getEmployees, List.mem_map] at hu
    obtain ⟨w, hw, rfl⟩ := hu
    have := (List.mem_filter.mp hw).2
    simp only [Bool.and_eq_true, beq_iff_eq] at this
    simpa [stripPassword] using this.1
  · intro p hp
    exact ((getLowStockProducts_characterization db T p).mp hp).2.1

/-- Witness for C1: a concrete product read back under tenant 1 carries
businessId 1. -/
theorem tenant_scoped_reads_witness :
    stockFive ∈ getProducts borderDb 1 ∧ stockFive.businessId = 1 :=
  ⟨by decide,
   (tenant_scoped_reads borderDb 1 1 none).2.1 stockFive (by decide)⟩

/-- One post-`$unwind` row of the top-products pipeline: a transaction
item paired with one product document joined on `productId = products.id`. -/
structure ItemRow where
  item : MongoTransactionItem
  product : MongoProduct
deriving Repr, DecidableEq

/-- Embeds `$lookup` of the parent transactions of an item
(`localField: transactionId, foreignField: id`). -/
def lookupTransactions (db : DB) (it : MongoTransactionItem) :
    List MongoTransaction :=
  db.transactions.filter (fun t => t.id == it.transactionId)

/-- The `$match {'transaction.businessId': businessId,
'transaction.status': 'completed'}` stage on the looked-up array: each
condition holds when SOME array element satisfies it (Mongo array-field
match semantics; without `$elemMatch` the two may be different elements). -/
def topProductsMatch (db : DB) (businessId : Nat)
    (it : MongoTransactionItem) : Bool :=
  (lookupTransactions db it).any (fun t => t.businessId == businessId)
    && (lookupTransactions db it).any (fun t => t.status == "completed")

/-- Rows surviving `$match` followed by the product `$lookup` and
`$unwind '$product'` (items whose product array is empty are dropped). -/
def matchedRows (db : DB) (businessId : Nat) : List ItemRow :=
  (db.transactionItems.filter (topProductsMatch db businessId)).flatMap
    (fun it =>
      (db.products.filter (fun p => p.id == it.productId)).map
        (fun p => ⟨it, p⟩))

/-- Keys of a list in first-occurrence order, without duplicates (the
bucket order of the `$group` stage in this model). -/
def firstOccs : List Nat → List Nat
  | [] => []
  | a :: rest => a :: (firstOccs rest).filter (fun b => b ≠ a)

/-- One output document of the top-products pipeline: the `$first`
product's fields plus the grouped `soldCount` and `revenue` sums. -/
structure TopProductEntry where
  id : Nat
  businessId : Nat
  categoryId : Option Nat
  name : String
  description : Option String
  sku : Option String
  barcode : Option String
  price : String
  cost : String
  stock : Nat
  lowStockThreshold : Nat
  isActive : Bool
  createdAt : Nat
  soldCount : Nat
  revenue : Int
deriving Repr, DecidableEq

/-- Build one `$group` bucket output from its `$first` row `r0` and the
full bucket `grp`: `soldCount := $sum '$quantity'`,
`revenue := $sum { $toDouble: '$total' }`, product fields from `r0`. -/
def mkEntry (r0 : ItemRow) (grp : List ItemRow) : TopProductEntry :=
  { id := r0.product.id, businessId := r0.product.businessId,
    categoryId := r0.product.categoryId, name := r0.product.name,
    description := r0.product.description, sku := r0.product.sku,
    barcode := r0.product.barcode, price := r0.product.price,
    cost := r0.product.cost, stock := r0.product.stock,
    lowStockThreshold := r0.product.lowStockThreshold,
    isActive := r0.product.isActive, createdAt := r0.product.createdAt,
    soldCount := (grp.map (fun r => r.item.quantity)).sum,
    revenue := (grp.map (fun r => r.item.total)).sum }

/-- The `$group {_id: '$productId', ...}` stage: one entry per distinct
productId of the rows, in first-occurrence order. -/
def groupRows (rows : List ItemRow) : List TopProductEntry :=
  (firstOccs (rows.map (fun r => r.item.productId))).filterMap (fun pid =>
    (rows.find? (fun r => r.item.productId == pid)).map (fun r0 =>
      mkEntry r0 (rows.filter (fun r => r.item.productId == pid))))

/-- The `$sort {soldCount: -1}` comparison (no secondary key). -/
def topSortLe (a b : TopProductEntry) : Bool :=
  decide (b.soldCount ≤ a.soldCount)

/-- Embeds `MongoStorage.getTopProducts`: group the matched item rows by product,
sort by `soldCount` descending and truncate to `limit`. -/
def getTopProducts (db : DB) (businessId limit : Nat) :
    List TopProductEntry :=
  (sortBy topSortLe (groupRows (matchedRows db businessId))).take limit

theorem mem_firstOccs (l : List Nat) (a : Nat) : a ∈ firstOccs l ↔ a ∈ l := by
  induction l with
  | nil => simp [firstOccs]
  | cons x rest ih =>
    constructor
    · intro h
      rcases List.mem_cons.mp h with rfl | h
      · exact List.mem_cons_self _ _
      · exact List.mem_cons_of_mem x (ih.mp (List.mem_filter.mp h).1)
    · intro h
      rcases List.mem_cons.mp h with rfl | h
      · exact List.mem_cons_self _ _
      · by_cases hx : a = x
        · exact hx ▸ List.mem_cons_self _ _
        · exact List.mem_cons_of_mem x
            (List.mem_filter.mpr ⟨ih.mpr h, by simpa using hx⟩)

theorem nodup_firstOccs (l : List Nat) : (firstOccs l).Nodup := by
  induction l with
  | nil => simp [firstOccs]
  | cons x rest ih =>
    refine List.nodup_cons.mpr ⟨?_, List.Nodup.filter _ ih⟩
    intro h
    have := (List.mem_filter.mp h).2
    simp at this

theorem matchedRows_product_id (db : DB) (T : Nat) (r : ItemRow)
    (h : r ∈ matchedRows db T) :
    r.product.id = r.item.productId ∧ r.product ∈ db.products ∧
      r.item ∈ db.transactionItems ∧ topProductsMatch db T r.item = true := by
  simp only [matchedRows, List.mem_flatMap, List.mem_map, List.mem_filter] at h
  obtain ⟨it, ⟨hit, hmatch⟩, p, hp, rfl⟩ := h
  have hpid : p.id = it.productId := by simpa using hp.2
  exact ⟨hpid, hp.1, hit, hmatch⟩

theorem groupRows_char (rows : List ItemRow)
    (hpid : ∀ r ∈ rows, r.product.id = r.item.productId)
    (e : TopProductEntry) (he : e ∈ groupRows rows) :
    ∃ r0, rows.find? (fun r => r.item.productId == e.id) = some r0 ∧
      e = mkEntry r0 (rows.filter (fun r => r.item.productId == e.id)) := by
  simp only [groupRows, List.mem_filterMap, Option.map_eq_some'] at he
  obtain ⟨pid, hpidmem, r0, hfind, rfl⟩ := he
  have hr0mem : r0 ∈ rows := List.mem_of_find?_eq_some hfind
  have hr0pid : r0.item.productId = pid := by
    have := List.find?_some hfind
    simpa using this
  have hid : (mkEntry r0 (rows.filter (fun r => r.item.productId == pid))).id = pid := by
    simp [mkEntry, hpid r0 hr0mem, hr0pid]
  rw [hid]
  exact ⟨r0, hfind, rfl⟩

theorem filterMap_map_id_eq (l : List Nat) (f : Nat → Option TopProductEntry)
    (h : ∀ a ∈ l, ∃ b, f a = some b ∧ b.id = a) :
    ((l.filterMap f).map (fun e => e.id)) = l := by
  induction l with
  | nil => simp
  | cons a rest ih =>
    obtain ⟨b, hb, hid⟩ := h a (List.mem_cons_self a rest)
    simp only [List.filterMap_cons, hb, List.map_cons, hid]
    rw [ih (fun x hx => h x (List.mem_cons_of_mem a hx))]

theorem groupRows_ids (rows : List ItemRow)
    (hpid : ∀ r ∈ rows, r.product.id = r.item.productId) :
    (groupRows rows).map (fun e => e.id)
      = firstOccs (rows.map (fun r => r.item.productId)) := by
  apply filterMap_map_id_eq
  intro pid hmem
  have hmem' : pid ∈ rows.map (fun r => r.item.productId) :=
    (mem_firstOccs _ pid).mp hmem
  obtain ⟨r, hr, hrpid⟩ := List.mem_map.mp hmem'
  have hfind : (rows.find? (fun r => r.item.productId == pid)).isSome := by
    rw [List.find?_isSome]
    exact ⟨r, hr, by simpa using hrpid⟩
  obtain ⟨r0, hr0⟩ := Option.isSome_iff_exists.mp hfind
  refine ⟨mkEntry r0 (rows.filter (fun r => r.item.productId == pid)),
    by simp [hr0], ?_⟩
  have hr0mem : r0 ∈ rows := List.mem_of_find?_eq_some hr0
  have hr0pid : r0.item.productId = pid := by
    have := List.find?_some hr0
    simpa using this
  simp [mkEntry, hpid r0 hr0mem, hr0pid]

/-- C7 (amended): `getTopProducts T n` returns at most `n` entries,
ordered by `soldCount` descending; each entry is the `$group` bucket of
one product of the matched rows — product fields from the bucket's first
row, `soldCount` the sum of the bucket's quantities and `revenue` the sum
of its totals — and distinct entries describe distinct product ids.  The
sort applies no secondary key: entries with equal `soldCount` appear in
bucket order (first occurrence among that tenant's completed-transaction
items), not by product id, so the claimed id-ascending tie-break does not
hold (see the counterexample). -/
theorem getTopProducts_aggregates (db : DB) (T n : Nat) :
    (getTopProducts db T n).length ≤ n ∧
    List.Pairwise (fun a b => b.soldCount ≤ a.soldCount)
      (getTopProducts db T n) ∧
    (∀ e ∈ getTopProducts db T n,
      ∃ r0, (matchedRows db T).find? (fun r => r.item.productId == e.id)
          = some r0 ∧
        e = mkEntry r0
          ((matchedRows db T).filter (fun r => r.item.productId == e.id)) ∧
        e.soldCount = (((matchedRows db T).filter
            (fun r => r.item.productId == e.id)).map
              (fun r => r.item.quantity)).sum ∧
        e.revenue = (((matchedRows db T).filter
            (fun r => r.item.productId == e.id)).map
              (fun r => r.item.total)).sum ∧
        r0.product ∈ db.products ∧ r0.product.id = e.id) ∧
    ((getTopProducts db T n).map (fun e => e.id)).Nodup := by
  have hpid : ∀ r ∈ matchedRows db T, r.product.id = r.item.productId :=
    fun r hr => (matchedRows_product_id db T r hr).1
  refine ⟨?_, ?_, ?_, ?_⟩
  · exact List.length_take_le n _
  · have hsorted := pairwise_sortBy topSortLe
      (fun a b => by
        simp only [topSortLe, decide_eq_true_eq]
        omega)
      (fun a b c h1 h2 => by
        simp only [topSortLe, decide_eq_true_eq] at *
        omega)
      (groupRows (matchedRows db T))
    have := List.Pairwise.sublist (List.take_sublist n _) hsorted
    refine this.imp ?_
    intro a b h
    simpa [topSortLe] using h
  · intro e he
    have hmem : e ∈ groupRows (matchedRows db T) := by
      have h1 : e ∈ sortBy topSortLe (groupRows (matchedRows db T)) :=
        (List.take_sublist n _).subset he
      exact (mem_sortBy _ _ e).mp h1
    obtain ⟨r0, hfind, hentry⟩ := groupRows_char _ hpid e hmem
    have hr0mem : r0 ∈ matchedRows db T := List.mem_of_find?_eq_some hfind
    have hr0pid : r0.item.productId = e.id := by
      have := List.find?_some hfind
      simpa using this
    have heid : r0.product.id = e.id := by
      rw [hpid r0 hr0mem]
      exact hr0pid
    refine ⟨r0, hfind, hentry, ?_, ?_,
      (matchedRows_product_id db T r0 hr0mem).2.1, heid⟩
    · conv_lhs => rw [hentry]
      simp [mkEntry]
    · conv_lhs => rw [hentry]
      simp [mkEntry]
  · have hids : (groupRows (matchedRows db T)).map (fun e => e.id)
        = firstOccs ((matchedRows db T).map (fun r => r.item.productId)) :=
      groupRows_ids _ hpid
    have hnd : ((groupRows (matchedRows db T)).map (fun e => e.id)).Nodup := by
      rw [hids]
      exact nodup_firstOccs _
    have hperm : ((sortBy topSortLe (groupRows (matchedRows db T))).map
          (fun e => e.id)).Perm
        ((groupRows (matchedRows db T)).map (fun e => e.id)) :=
      (perm_sortBy _ _).map _
    have hnd2 := (hperm.nodup_iff).mpr hnd
    exact List.Nodup.sublist (List.Sublist.map _ (List.take_sublist n _)) hnd2

/-- Two single-item completed sales of distinct products with equal
quantities, the product-id-2 item stored first. -/
def tieDb : DB :=
  ⟨[("transactions", 1), ("transactionItems", 2), ("products", 2)],
   [], [],
   [{ id := 1, businessId := 1, categoryId := none, name := "a",
      description := none, sku := none, barcode := none, price := "10.00",
      cost := "5.00", stock := 9, lowStockThreshold := 5, isActive := true,
      createdAt := 0 },
    { id := 2, businessId := 1, categoryId := none, name := "b",
      description := none, sku := none, barcode := none, price := "10.00",
      cost := "5.00", stock := 9, lowStockThreshold := 5, isActive := true,
      createdAt := 0 }],
   [],
   [{ id := 1, businessId := 1, customerId := none, userId := 1,
      transactionNumber := "TXN-1", subtotal := "60.00", taxAmount := "0.00",
      total := "60.00", paymentMethod := "cash", status := "completed",
      createdAt := 0 }],
   [{ id := 1, transactionId := 1, productId := 2, quantity := 3,
      unitPrice := 10, total := 30 },
    { id := 2, transactionId := 1, productId := 1, quantity := 3,
      unitPrice := 10, total := 30 }]⟩

/-- Counterexample for C7 as stated: on `tieDb` both products have
soldCount 3, yet `getTopProducts` returns product 2 before product 1 —
the `$sort {soldCount: -1}` stage has no secondary key, so equal
`soldCount` entries are NOT ordered by product id ascending. -/
theorem topProducts_tiebreak_counterexample :
    (getTopProducts tieDb 1 5).map (fun e => (e.id, e.soldCount))
      = [(2, 3), (1, 3)] := by decide

/-- Witness for C7 (amended) at the concrete tie store: two entries,
within the limit, sorted by descending soldCount. -/
theorem getTopProducts_aggregates_witness :
    (getTopProducts tieDb 1 5).length ≤ 5 ∧
    List.Pairwise (fun a b => b.soldCount ≤ a.soldCount)
      (getTopProducts tieDb 1 5) :=
  ⟨(getTopProducts_aggregates tieDb 1 5).1,
   (getTopProducts_aggregates tieDb 1 5).2.1⟩

/-- Two tenants whose product ids collide numerically (both id 1, the
tenant-2 copy stored first), and one completed tenant-1 sale of product 1. -/
def collideDb : DB :=
  ⟨[("transactions", 1), ("transactionItems", 1), ("products", 1)],
   [], [],
   [{ id := 1, businessId := 2, categoryId := none, name := "foreign",
      description := none, sku := none, barcode := none, price := "99.00",
      cost := "1.00", stock := 9, lowStockThreshold := 5, isActive := true,
      createdAt := 0 },
    { id := 1, businessId := 1, categoryId := none, name := "own",
      description := none, sku := none, barcode := none, price := "10.00",
      cost := "5.00", stock := 9, lowStockThreshold := 5, isActive := true,
      createdAt := 0 }],
   [],
   [{ id := 1, businessId := 1, customerId := none, userId := 1,
      transactionNumber := "TXN-1", subtotal := "20.00", taxAmount := "0.00",
      total := "20.00", paymentMethod := "cash", status := "completed",
      createdAt := 0 }],
   [{ id := 1, transactionId := 1, productId := 1, quantity := 2,
      unitPrice := 10, total := 20 }]⟩

/-- Counterexample for C1 as stated: `getTopProducts` under tenant 1
returns an entry whose `businessId` is 2 — the product `$lookup` joins on
`productId = products.id` alone, so under numerically colliding product
ids the `$first` product of the group can belong to another tenant. -/
theorem cross_tenant_topProducts_counterexample :
    (getTopProducts collideDb 1 5).map (fun e => e.businessId) = [2] ∧
    (getTopProducts collideDb 1 5).all (fun e => e.businessId == 1)
      = false := by
  exact ⟨by decide, by decide⟩

end ZnPOS
